import Mathlib

/-!
Verification of the ReBAC authorization model of the harvest-logbook
repository.

The repository declares a SpiceDB authorization schema (object types
`user`, `organization`, `farm`, `harvest_entry`, `query_session`) and
delegates evaluation to an external SpiceDB service.  The schema text and
the pure request-construction fragments of the calling code are embedded
here from the source; the permission evaluator itself does not exist in
the repository, so it is modelled from the specification (sections 4.2 to
4.4): a recursive-descent resolver over the compiled permission
expressions, guarded by a visited set of (resource, permission) pairs and
a defensive recursion cap.
-/

namespace HarvestAuthz

/-- Object reference: a (type, id) pair, as in the spec's data model and
the source's `v1.ObjectReference.create` calls. -/
structure ObjRef where
  ty : String
  id : String
  deriving DecidableEq

/-- Relationship tuple: (resource, relation, subject).  This mirrors the
source's `CreateRelationshipParams`, whose subjects are plain object
references (the write interface never writes subject-sets). -/
structure Tuple where
  res : ObjRef
  rel : String
  subj : ObjRef
  deriving DecidableEq

/-- The relationship store: a collection of tuples. -/
def Store := List Tuple

/-- Permission expression: the fixed algebra used by the declared schema,
a bare relation reference, union, intersection, or a relation-traversal
rewrite. -/
inductive PermExpr where
  | rel (name : String)
  | union (a b : PermExpr)
  | inter (a b : PermExpr)
  | arrow (relName : String) (permName : String)
  deriving DecidableEq

/-- Direct subjects of a relation on a resource: the store read
`read(resourceType, resourceId, relation) -> ObjectReference[]`. -/
def relTargets (store : List Tuple) (r : ObjRef) (relName : String) : List ObjRef :=
  (store.filter (fun t => decide (t.res = r ∧ t.rel = relName))).map (fun t => t.subj)

/-- Whether a subject holds a relation directly on a resource. -/
def hasRel (store : List Tuple) (r : ObjRef) (relName : String) (s : ObjRef) : Bool :=
  (relTargets store r relName).any (fun t => decide (t = s))

/-- The declared schema instance, transcribed from the schema text in the
repository's authorization-setup document: resolves a (type, name) pair
to the compiled permission expression, falling back to a bare relation
reference when the name is a declared relation of the type (as needed by
the traversal `organization->admin` in `farm.manage`). -/
def resolveExpr (ty name : String) : Option PermExpr :=
  match ty, name with
  | "organization", "view" => some (.union (.rel "admin") (.rel "member"))
  | "organization", "edit" => some (.union (.rel "admin") (.rel "member"))
  | "organization", "query" => some (.union (.rel "admin") (.rel "member"))
  | "organization", "manage" => some (.rel "admin")
  | "organization", "admin" => some (.rel "admin")
  | "organization", "member" => some (.rel "member")
  | "farm", "view" =>
      some (.union (.rel "viewer") (.union (.rel "editor")
        (.union (.rel "owner") (.arrow "organization" "view"))))
  | "farm", "edit" =>
      some (.union (.rel "editor") (.union (.rel "owner")
        (.arrow "organization" "edit")))
  | "farm", "query" =>
      some (.union (.rel "viewer") (.union (.rel "editor")
        (.union (.rel "owner") (.arrow "organization" "query"))))
  | "farm", "manage" =>
      some (.union (.rel "owner") (.arrow "organization" "admin"))
  | "farm", "organization" => some (.rel "organization")
  | "farm", "owner" => some (.rel "owner")
  | "farm", "editor" => some (.rel "editor")
  | "farm", "viewer" => some (.rel "viewer")
  | "harvest_entry", "view" => some (.arrow "farm" "view")
  | "harvest_entry", "edit" => some (.arrow "farm" "edit")
  | "harvest_entry", "delete" =>
      some (.union (.rel "creator") (.arrow "farm" "manage"))
  | "harvest_entry", "farm" => some (.rel "farm")
  | "harvest_entry", "creator" => some (.rel "creator")
  | "query_session", "execute" =>
      some (.inter (.rel "user") (.arrow "farm" "query"))
  | "query_session", "view_results" =>
      some (.inter (.rel "user") (.arrow "farm" "view"))
  | "query_session", "farm" => some (.rel "farm")
  | "query_session", "user" => some (.rel "user")
  | _, _ => none

/-- Modelled from the spec: one level of the Permission Resolver's
recursive descent (section 4.3).  Evaluates a compiled expression against
the store for a given subject and resource; recursive permission checks
on traversal targets go through the supplied continuation. -/
def evalExprWith (store : List Tuple) (chk : ObjRef → String → Bool)
    (s r : ObjRef) : PermExpr → Bool
  | .rel name => hasRel store r name s
  | .union a b => evalExprWith store chk s r a || evalExprWith store chk s r b
  | .inter a b => evalExprWith store chk s r a && evalExprWith store chk s r b
  | .arrow relName permName =>
      (relTargets store r relName).any (fun t => chk t permName)

/-- Modelled from the spec: the Permission Resolver (section 4.3), which
does not exist in the repository (evaluation is delegated to the external
service).  Expansion of a permission on a resource is guarded by a
visited set of (resource, permission) pairs so that a cyclic branch
resolves to false, and by a defensive recursion cap (section 5) whose
exhaustion likewise denies.  An undeclared type or permission resolves to
false (deny, per the fail-closed rule of section 7). -/
def checkVisited (store : List Tuple) :
    Nat → List (ObjRef × String) → ObjRef → ObjRef → String → Bool
  | 0, _, _, _, _ => false
  | fuel + 1, visited, s, r, p =>
    if (r, p) ∈ visited then false
    else
      match resolveExpr r.ty p with
      | none => false
      | some e =>
          evalExprWith store (fun t q => checkVisited store fuel ((r, p) :: visited) s t q) s r e

/-- Recursion cap: the declared schema's traversal depth is at most three
nested permission expansions (harvest entry to farm to organization), so
a cap of four never binds on schema-conformant stores. -/
def depthCap : Nat := 4

/-- Modelled from the spec: the Permission Resolver contract
`check(subject, resource, permission) -> bool`. -/
def check (store : List Tuple) (s r : ObjRef) (p : String) : Bool :=
  checkVisited store depthCap [] s r p

/-- Resources of a given type occurring in the store. -/
def resourcesOfType (store : List Tuple) (ty : String) : List ObjRef :=
  ((store.map (fun t => t.res)).filter (fun r => decide (r.ty = ty))).dedup

/-- Modelled from the spec: the Resource Lookup Engine contract
`lookup(subject, resourceType, permission) -> ObjectReference[],
unordered, no duplicates` (section 4.4), realised by the
enumerate-and-check strategy the spec states to be correct. -/
def lookupResources (store : List Tuple) (s : ObjRef) (ty p : String) : List ObjRef :=
  (resourcesOfType store ty).filter (fun r => check store s r p)

/-- Modelled from the spec: the store write `touch(tuple)`, an idempotent
insert keeping (resource, relation, subject) triples unique. -/
def touchTuple (store : List Tuple) (t : Tuple) : List Tuple :=
  if t ∈ store then store else t :: store

/-- Modelled from the spec: the store write `delete(tuple)`, an
idempotent removal; deleting a nonexistent tuple is a no-op. -/
def deleteTuple (store : List Tuple) (t : Tuple) : List Tuple :=
  store.filter (fun u => decide (u ≠ t))

/-- A tuple whose subject type matches the declared schema's subject type
for its (resource type, relation) pair. -/
def wellTypedTuple (t : Tuple) : Bool :=
  if t.res.ty = "organization" then
    (t.rel = "admin" || t.rel = "member") && t.subj.ty = "user"
  else if t.res.ty = "farm" then
    if t.rel = "organization" then t.subj.ty = "organization"
    else (t.rel = "owner" || t.rel = "editor" || t.rel = "viewer") && t.subj.ty = "user"
  else if t.res.ty = "harvest_entry" then
    if t.rel = "farm" then t.subj.ty = "farm"
    else t.rel = "creator" && t.subj.ty = "user"
  else if t.res.ty = "query_session" then
    if t.rel = "farm" then t.subj.ty = "farm"
    else t.rel = "user" && t.subj.ty = "user"
  else false

/-- A store all of whose tuples conform to the declared schema. -/
def WellTyped (store : List Tuple) : Prop :=
  ∀ t ∈ store, wellTypedTuple t = true

instance (store : List Tuple) : Decidable (WellTyped store) := by
  unfold WellTyped
  infer_instance

/- ---------------------------------------------------------------------
Source-faithful embeddings of the pure request-construction and decision
fragments of the calling code (authzed-service, spicedb-service, and the
authorization middleware).
--------------------------------------------------------------------- -/

/-- Consistency requirement carried by a SpiceDB request. -/
inductive ConsistencyMode where
  | fullyConsistent
  | minimizeLatency
  | atLeastAsFresh
  deriving DecidableEq

/-- Parameters of `checkPermission`, as in the source's
`CheckPermissionParams` interface. -/
structure CheckPermissionParams where
  userId : String
  resourceType : String
  resourceId : String
  permission : String

/-- A `CheckPermissionRequest` as constructed by the service. -/
structure CheckRequest where
  consistency : ConsistencyMode
  resource : ObjRef
  permission : String
  subject : ObjRef

/-- The request built by `AuthZedService.checkPermission` (identically by
`SpiceDBService.checkPermission`): fully-consistent, resource from the
params, subject fixed to type `user`. -/
def buildCheckPermissionRequest (params : CheckPermissionParams) : CheckRequest :=
  { consistency := .fullyConsistent
    resource := ⟨params.resourceType, params.resourceId⟩
    permission := params.permission
    subject := ⟨"user", params.userId⟩ }

/-- A `LookupResourcesRequest` as constructed by the service. -/
structure LookupRequest where
  consistency : ConsistencyMode
  resourceObjectType : String
  permission : String
  subject : ObjRef

/-- The request built by `lookupResources` in the service code:
fully-consistent, subject fixed to type `user`. -/
def buildLookupResourcesRequest (userId resourceType permission : String) : LookupRequest :=
  { consistency := .fullyConsistent
    resourceObjectType := resourceType
    permission := permission
    subject := ⟨"user", userId⟩ }

/-- Relationship-update operation tag. -/
inductive RelOp where
  | TOUCH
  | DELETE
  deriving DecidableEq

/-- Parameters of the relationship-write methods, as in the source's
`CreateRelationshipParams` interface. -/
structure CreateRelationshipParams where
  subjectType : String
  subjectId : String
  relation : String
  resourceType : String
  resourceId : String

/-- A single `RelationshipUpdate` as constructed by the service. -/
structure RelationshipUpdate where
  op : RelOp
  res : ObjRef
  rel : String
  subj : ObjRef

/-- The update built by `AuthZedService.createRelationship`: operation
TOUCH on the (resource, relation, subject) triple from the params. -/
def buildCreateRelationshipUpdate (params : CreateRelationshipParams) : RelationshipUpdate :=
  { op := .TOUCH
    res := ⟨params.resourceType, params.resourceId⟩
    rel := params.relation
    subj := ⟨params.subjectType, params.subjectId⟩ }

/-- The update built by `AuthZedService.deleteRelationship`: operation
DELETE on the same triple. -/
def buildDeleteRelationshipUpdate (params : CreateRelationshipParams) : RelationshipUpdate :=
  { op := .DELETE
    res := ⟨params.resourceType, params.resourceId⟩
    rel := params.relation
    subj := ⟨params.subjectType, params.subjectId⟩ }

/-- Outcome of the authorization middleware for one request: either an
immediate response with a status code, or control passed to the protected
handler. -/
inductive MwOutcome where
  | respond (status : Nat)
  | callHandler
  deriving DecidableEq

/-- The decision structure of `createSpiceDBMiddleware`: missing user id
answers 401; missing resource id answers 400; a thrown authorization
check lands in the catch block and answers 500; a false check answers
403; only a true check reaches `next()`. -/
def middlewareDecision (userId resourceId : Option String)
    (checkOutcome : Except String Bool) : MwOutcome :=
  match userId with
  | none => .respond 401
  | some _ =>
    match resourceId with
    | none => .respond 400
    | some _ =>
      match checkOutcome with
      | .error _ => .respond 500
      | .ok false => .respond 403
      | .ok true => .callHandler

/- ---------------------------------------------------------------------
Helper lemmas.
--------------------------------------------------------------------- -/

lemma checkVisited_succ (store : List Tuple) (fuel : Nat) (V : List (ObjRef × String))
    (s r : ObjRef) (p : String) :
    checkVisited store (fuel + 1) V s r p =
      if (r, p) ∈ V then false
      else
        match resolveExpr r.ty p with
        | none => false
        | some e =>
            evalExprWith store (fun t q => checkVisited store fuel ((r, p) :: V) s t q) s r e :=
  rfl

lemma any_ext {α : Type} {l : List α} {p q : α → Bool} (h : ∀ x ∈ l, p x = q x) :
    l.any p = l.any q := by
  induction l with
  | nil => rfl
  | cons a t ih =>
      simp only [List.any_cons]
      rw [h a (by simp), ih (fun x hx => h x (by simp [hx]))]

lemma mem_relTargets {store : List Tuple} {r : ObjRef} {rl : String} {o : ObjRef} :
    o ∈ relTargets store r rl ↔ ∃ t ∈ store, t.res = r ∧ t.rel = rl ∧ t.subj = o := by
  simp only [relTargets, List.mem_map, List.mem_filter, decide_eq_true_eq]
  constructor
  · rintro ⟨t, ⟨ht, hres, hrel⟩, hsubj⟩
    exact ⟨t, ht, hres, hrel, hsubj⟩
  · rintro ⟨t, ht, hres, hrel, hsubj⟩
    exact ⟨t, ⟨ht, hres, hrel⟩, hsubj⟩

lemma relTargets_mono {s₁ s₂ : List Tuple} (hsub : ∀ x ∈ s₁, x ∈ s₂)
    {r : ObjRef} {rl : String} {o : ObjRef} (ho : o ∈ relTargets s₁ r rl) :
    o ∈ relTargets s₂ r rl := by
  rcases mem_relTargets.mp ho with ⟨t, ht, h⟩
  exact mem_relTargets.mpr ⟨t, hsub t ht, h⟩

lemma hasRel_mono {s₁ s₂ : List Tuple} (hsub : ∀ x ∈ s₁, x ∈ s₂)
    {r : ObjRef} {rl : String} {s : ObjRef} (h : hasRel s₁ r rl s = true) :
    hasRel s₂ r rl s = true := by
  rcases List.any_eq_true.mp h with ⟨o, ho, hos⟩
  exact List.any_eq_true.mpr ⟨o, relTargets_mono hsub ho, hos⟩

lemma evalExprWith_mono {s₁ s₂ : List Tuple} (hsub : ∀ x ∈ s₁, x ∈ s₂)
    {chk₁ chk₂ : ObjRef → String → Bool}
    (hchk : ∀ t q, chk₁ t q = true → chk₂ t q = true) (s r : ObjRef) :
    ∀ e : PermExpr, evalExprWith s₁ chk₁ s r e = true → evalExprWith s₂ chk₂ s r e = true := by
  intro e
  induction e with
  | rel name =>
      exact fun h => hasRel_mono hsub h
  | union a b iha ihb =>
      simp only [evalExprWith, Bool.or_eq_true]
      rintro (h | h)
      · exact Or.inl (iha h)
      · exact Or.inr (ihb h)
  | inter a b iha ihb =>
      simp only [evalExprWith, Bool.and_eq_true]
      rintro ⟨ha, hb⟩
      exact ⟨iha ha, ihb hb⟩
  | arrow rl pm =>
      simp only [evalExprWith]
      intro h
      rcases List.any_eq_true.mp h with ⟨t, ht, hc⟩
      exact List.any_eq_true.mpr ⟨t, relTargets_mono hsub ht, hchk t pm hc⟩

lemma checkVisited_mono {s₁ s₂ : List Tuple} (hsub : ∀ x ∈ s₁, x ∈ s₂) :
    ∀ (fuel : Nat) (V : List (ObjRef × String)) (s r : ObjRef) (p : String),
      checkVisited s₁ fuel V s r p = true → checkVisited s₂ fuel V s r p = true := by
  intro fuel
  induction fuel with
  | zero => intro V s r p h; simp [checkVisited] at h
  | succ n ih =>
      intro V s r p h
      rw [checkVisited_succ] at h ⊢
      by_cases hv : (r, p) ∈ V
      · rw [if_pos hv] at h; exact absurd h (by simp)
      · rw [if_neg hv] at h ⊢
        cases hre : resolveExpr r.ty p with
        | none => rw [hre] at h; simp at h
        | some e =>
            rw [hre] at h
            exact evalExprWith_mono hsub (fun t q => ih ((r, p) :: V) s t q) s r e h

lemma evalExprWith_absent {store : List Tuple} {r : ObjRef}
    (h : ∀ rl, relTargets store r rl = []) (chk : ObjRef → String → Bool) (s : ObjRef) :
    ∀ e : PermExpr, evalExprWith store chk s r e = false := by
  intro e
  induction e with
  | rel name => simp [evalExprWith, hasRel, h]
  | union a b iha ihb => simp [evalExprWith, iha, ihb]
  | inter a b iha ihb => simp [evalExprWith, iha]
  | arrow rl pm => simp [evalExprWith, h]

lemma checkVisited_absent {store : List Tuple} {r : ObjRef}
    (h : ∀ rl, relTargets store r rl = []) (fuel : Nat) (V : List (ObjRef × String))
    (s : ObjRef) (p : String) : checkVisited store fuel V s r p = false := by
  cases fuel with
  | zero => rfl
  | succ n =>
      rw [checkVisited_succ]
      by_cases hv : (r, p) ∈ V
      · rw [if_pos hv]
      · rw [if_neg hv]
        cases hre : resolveExpr r.ty p with
        | none => rfl
        | some e => exact evalExprWith_absent h _ s e

lemma relTargets_nil_of_not_res {store : List Tuple} {r : ObjRef}
    (h : ∀ t ∈ store, t.res ≠ r) (rl : String) : relTargets store r rl = [] := by
  simp only [relTargets, List.map_eq_nil_iff, List.filter_eq_nil_iff, decide_eq_true_eq]
  intro t ht hc
  exact h t ht hc.1

lemma farm_org_target {store : List Tuple} (hWT : WellTyped store) {F o : ObjRef}
    (hF : F.ty = "farm") (ho : o ∈ relTargets store F "organization") :
    o.ty = "organization" := by
  rcases mem_relTargets.mp ho with ⟨t, ht, hres, hrel, hsubj⟩
  have hw := hWT t ht
  unfold wellTypedTuple at hw
  rw [hres, hF, hrel] at hw
  simp at hw
  rw [← hsubj]
  exact hw

lemma harvest_farm_target {store : List Tuple} (hWT : WellTyped store) {E o : ObjRef}
    (hE : E.ty = "harvest_entry") (ho : o ∈ relTargets store E "farm") :
    o.ty = "farm" := by
  rcases mem_relTargets.mp ho with ⟨t, ht, hres, hrel, hsubj⟩
  have hw := hWT t ht
  unfold wellTypedTuple at hw
  rw [hres, hE, hrel] at hw
  simp at hw
  rw [← hsubj]
  exact hw

lemma qs_farm_target {store : List Tuple} (hWT : WellTyped store) {Q o : ObjRef}
    (hQ : Q.ty = "query_session") (ho : o ∈ relTargets store Q "farm") :
    o.ty = "farm" := by
  rcases mem_relTargets.mp ho with ⟨t, ht, hres, hrel, hsubj⟩
  have hw := hWT t ht
  unfold wellTypedTuple at hw
  rw [hres, hQ, hrel] at hw
  simp at hw
  rw [← hsubj]
  exact hw

/-- Closed form of the organization permissions view, edit and query:
admin or member. -/
def orgMemberForm (store : List Tuple) (o s : ObjRef) : Bool :=
  hasRel store o "admin" s || hasRel store o "member" s

/-- Closed form of the farm permissions view and query: a direct viewer,
editor or owner relation, or membership (admin or member) in some linked
organization. -/
def farmUnionForm (store : List Tuple) (f s : ObjRef) : Bool :=
  hasRel store f "viewer" s || (hasRel store f "editor" s || (hasRel store f "owner" s ||
    (relTargets store f "organization").any (fun o => orgMemberForm store o s)))

lemma checkVisited_org_union (store : List Tuple) (f : Nat) (V : List (ObjRef × String))
    (s o : ObjRef) (p : String) (hO : o.ty = "organization")
    (hp : p = "view" ∨ p = "edit" ∨ p = "query")
    (hV : ∀ pr ∈ V, pr.1.ty ≠ "organization") :
    checkVisited store (f + 1) V s o p = orgMemberForm store o s := by
  have hmem : (o, p) ∉ V := fun h => hV _ h hO
  rw [checkVisited_succ, if_neg hmem, hO]
  rcases hp with h | h | h <;> subst h <;> rfl

lemma checkVisited_org_admin (store : List Tuple) (f : Nat) (V : List (ObjRef × String))
    (s o : ObjRef) (p : String) (hO : o.ty = "organization")
    (hp : p = "admin" ∨ p = "manage")
    (hV : ∀ pr ∈ V, pr.1.ty ≠ "organization") :
    checkVisited store (f + 1) V s o p = hasRel store o "admin" s := by
  have hmem : (o, p) ∉ V := fun h => hV _ h hO
  rw [checkVisited_succ, if_neg hmem, hO]
  rcases hp with h | h <;> subst h <;> rfl

lemma checkVisited_org_member (store : List Tuple) (f : Nat) (V : List (ObjRef × String))
    (s o : ObjRef) (hO : o.ty = "organization")
    (hV : ∀ pr ∈ V, pr.1.ty ≠ "organization") :
    checkVisited store (f + 1) V s o "member" = hasRel store o "member" s := by
  have hmem : (o, "member") ∉ V := fun h => hV _ h hO
  rw [checkVisited_succ, if_neg hmem, hO]
  rfl

lemma checkVisited_farm_vq (store : List Tuple) (f : Nat) (V : List (ObjRef × String))
    (s F : ObjRef) (p : String) (hF : F.ty = "farm") (hWT : WellTyped store)
    (hp : p = "view" ∨ p = "query")
    (hV : ∀ pr ∈ V, pr.1.ty ≠ "organization" ∧ pr.1.ty ≠ "farm") :
    checkVisited store (f + 1 + 1) V s F p = farmUnionForm store F s := by
  have hmem : (F, p) ∉ V := fun h => (hV _ h).2 hF
  have hV' : ∀ pr ∈ (F, p) :: V, pr.1.ty ≠ "organization" := by
    intro pr hpr
    rcases List.mem_cons.mp hpr with h | h
    · rw [h]; rw [hF]; decide
    · exact (hV pr h).1
  rw [checkVisited_succ, if_neg hmem, hF]
  rcases hp with h | h <;> subst h
  · show (hasRel store F "viewer" s || (hasRel store F "editor" s || (hasRel store F "owner" s ||
      (relTargets store F "organization").any
        (fun t => checkVisited store (f + 1) ((F, "view") :: V) s t "view")))) =
      farmUnionForm store F s
    rw [any_ext (fun o ho =>
      checkVisited_org_union store f ((F, "view") :: V) s o "view"
        (farm_org_target hWT hF ho) (Or.inl rfl) hV')]
    rfl
  · show (hasRel store F "viewer" s || (hasRel store F "editor" s || (hasRel store F "owner" s ||
      (relTargets store F "organization").any
        (fun t => checkVisited store (f + 1) ((F, "query") :: V) s t "query")))) =
      farmUnionForm store F s
    rw [any_ext (fun o ho =>
      checkVisited_org_union store f ((F, "query") :: V) s o "query"
        (farm_org_target hWT hF ho) (Or.inr (Or.inr rfl)) hV')]
    rfl

lemma checkVisited_harvest_view (store : List Tuple) (f : Nat) (V : List (ObjRef × String))
    (s E : ObjRef) (hE : E.ty = "harvest_entry") (hWT : WellTyped store)
    (hV : ∀ pr ∈ V, pr.1.ty ≠ "organization" ∧ pr.1.ty ≠ "farm" ∧ pr.1.ty ≠ "harvest_entry") :
    checkVisited store (f + 1 + 1 + 1) V s E "view" =
      (relTargets store E "farm").any (fun F => farmUnionForm store F s) := by
  have hmem : (E, "view") ∉ V := fun h => (hV _ h).2.2 hE
  have hV' : ∀ pr ∈ (E, "view") :: V, pr.1.ty ≠ "organization" ∧ pr.1.ty ≠ "farm" := by
    intro pr hpr
    rcases List.mem_cons.mp hpr with h | h
    · rw [h]; rw [hE]; exact ⟨by decide, by decide⟩
    · exact ⟨(hV pr h).1, (hV pr h).2.1⟩
  rw [checkVisited_succ, if_neg hmem, hE]
  show (relTargets store E "farm").any
      (fun t => checkVisited store (f + 1 + 1) ((E, "view") :: V) s t "view") =
    (relTargets store E "farm").any (fun F => farmUnionForm store F s)
  exact any_ext (fun F hF =>
    checkVisited_farm_vq store f ((E, "view") :: V) s F "view"
      (harvest_farm_target hWT hE hF) hWT (Or.inl rfl) hV')

lemma checkVisited_qs_execute (store : List Tuple) (f : Nat) (V : List (ObjRef × String))
    (s Q : ObjRef) (hQ : Q.ty = "query_session") (hWT : WellTyped store)
    (hV : ∀ pr ∈ V, pr.1.ty ≠ "organization" ∧ pr.1.ty ≠ "farm" ∧ pr.1.ty ≠ "query_session") :
    checkVisited store (f + 1 + 1 + 1) V s Q "execute" =
      (hasRel store Q "user" s &&
        (relTargets store Q "farm").any (fun F => farmUnionForm store F s)) := by
  have hmem : (Q, "execute") ∉ V := fun h => (hV _ h).2.2 hQ
  have hV' : ∀ pr ∈ (Q, "execute") :: V, pr.1.ty ≠ "organization" ∧ pr.1.ty ≠ "farm" := by
    intro pr hpr
    rcases List.mem_cons.mp hpr with h | h
    · rw [h]; rw [hQ]; exact ⟨by decide, by decide⟩
    · exact ⟨(hV pr h).1, (hV pr h).2.1⟩
  rw [checkVisited_succ, if_neg hmem, hQ]
  show (hasRel store Q "user" s && (relTargets store Q "farm").any
      (fun t => checkVisited store (f + 1 + 1) ((Q, "execute") :: V) s t "query")) =
    (hasRel store Q "user" s &&
      (relTargets store Q "farm").any (fun F => farmUnionForm store F s))
  rw [any_ext (fun F hF =>
    checkVisited_farm_vq store f ((Q, "execute") :: V) s F "query"
      (qs_farm_target hWT hQ hF) hWT (Or.inr rfl) hV')]

lemma check_org_union (store : List Tuple) (s o : ObjRef) (p : String)
    (hO : o.ty = "organization") (hp : p = "view" ∨ p = "edit" ∨ p = "query") :
    check store s o p = orgMemberForm store o s := by
  show checkVisited store (3 + 1) [] s o p = orgMemberForm store o s
  exact checkVisited_org_union store 3 [] s o p hO hp (by simp)

lemma check_org_admin (store : List Tuple) (s o : ObjRef) (p : String)
    (hO : o.ty = "organization") (hp : p = "admin" ∨ p = "manage") :
    check store s o p = hasRel store o "admin" s := by
  show checkVisited store (3 + 1) [] s o p = hasRel store o "admin" s
  exact checkVisited_org_admin store 3 [] s o p hO hp (by simp)

lemma check_org_member (store : List Tuple) (s o : ObjRef)
    (hO : o.ty = "organization") :
    check store s o "member" = hasRel store o "member" s := by
  show checkVisited store (3 + 1) [] s o "member" = hasRel store o "member" s
  exact checkVisited_org_member store 3 [] s o hO (by simp)

lemma check_farm_vq (store : List Tuple) (s F : ObjRef) (p : String)
    (hF : F.ty = "farm") (hWT : WellTyped store) (hp : p = "view" ∨ p = "query") :
    check store s F p = farmUnionForm store F s := by
  show checkVisited store (2 + 1 + 1) [] s F p = farmUnionForm store F s
  exact checkVisited_farm_vq store 2 [] s F p hF hWT hp (by simp)

lemma check_harvest_view (store : List Tuple) (s E : ObjRef)
    (hE : E.ty = "harvest_entry") (hWT : WellTyped store) :
    check store s E "view" =
      (relTargets store E "farm").any (fun F => farmUnionForm store F s) := by
  show checkVisited store (1 + 1 + 1 + 1) [] s E "view" = _
  exact checkVisited_harvest_view store 1 [] s E hE hWT (by simp)

lemma check_qs_execute (store : List Tuple) (s Q : ObjRef)
    (hQ : Q.ty = "query_session") (hWT : WellTyped store) :
    check store s Q "execute" =
      (hasRel store Q "user" s &&
        (relTargets store Q "farm").any (fun F => farmUnionForm store F s)) := by
  show checkVisited store (1 + 1 + 1 + 1) [] s Q "execute" = _
  exact checkVisited_qs_execute store 1 [] s Q hQ hWT (by simp)

/- ---------------------------------------------------------------------
Sample data used by the witness theorems.
--------------------------------------------------------------------- -/

def alice : ObjRef := ⟨"user", "user_alice"⟩

def bob : ObjRef := ⟨"user", "user_bob"⟩

def org1 : ObjRef := ⟨"organization", "org_1"⟩

def farm1 : ObjRef := ⟨"farm", "farm_1"⟩

def entry1 : ObjRef := ⟨"harvest_entry", "entry_1"⟩

def sess1 : ObjRef := ⟨"query_session", "sess_1"⟩

def sampleStore : List Tuple :=
  [⟨org1, "admin", alice⟩,
   ⟨farm1, "organization", org1⟩,
   ⟨farm1, "owner", alice⟩,
   ⟨entry1, "farm", farm1⟩,
   ⟨sess1, "farm", farm1⟩,
   ⟨sess1, "user", alice⟩]

/- ---------------------------------------------------------------------
Claim theorems.
--------------------------------------------------------------------- -/

/-- C1: a relation-traversal rewrite has OR semantics over its targets:
the traversal expression evaluates to true iff at least one resource
directly related via the relation satisfies the referenced permission in
the same evaluation context; instantiated at the top-level check for the
pure-traversal permission harvest_entry.view under a schema-conformant
store, where the traversal with zero targets evaluates to false. -/
theorem c1_traversal_or_semantics :
    (∀ (store : List Tuple) (chk : ObjRef → String → Bool) (s r : ObjRef) (rl pm : String),
        evalExprWith store chk s r (.arrow rl pm) =
          (relTargets store r rl).any (fun t => chk t pm)) ∧
    (∀ (store : List Tuple) (s E : ObjRef), WellTyped store → E.ty = "harvest_entry" →
        (check store s E "view" =
          (relTargets store E "farm").any (fun F => check store s F "view")) ∧
        (relTargets store E "farm" = [] → check store s E "view" = false)) := by
  constructor
  · intro store chk s r rl pm
    rfl
  · intro store s E hWT hE
    have hL : check store s E "view" =
        (relTargets store E "farm").any (fun F => farmUnionForm store F s) :=
      check_harvest_view store s E hE hWT
    have hR : ∀ F ∈ relTargets store E "farm",
        check store s F "view" = farmUnionForm store F s := fun F hF =>
      check_farm_vq store s F "view" (harvest_farm_target hWT hE hF) hWT (Or.inl rfl)
    constructor
    · rw [hL]
      exact (any_ext hR).symm
    · intro hnil
      rw [hL, hnil]
      rfl

theorem c1_witness :
    WellTyped sampleStore ∧
    check sampleStore alice entry1 "view" =
      (relTargets sampleStore entry1 "farm").any
        (fun F => check sampleStore alice F "view") :=
  ⟨by decide, (c1_traversal_or_semantics.2 sampleStore alice entry1 (by decide) rfl).1⟩

/-- C2: the authorization middleware is fail-closed: the protected
handler runs iff a user id and a resource id were supplied and the
permission check returned true; a false check answers 403, and a thrown
check (or a false one) never reaches the handler. -/
theorem c2_middleware_fail_closed :
    ∀ (u rid : Option String) (c : Except String Bool),
      (middlewareDecision u rid c = MwOutcome.callHandler ↔
        u.isSome ∧ rid.isSome ∧ c = Except.ok true) ∧
      (u.isSome → rid.isSome → c = Except.ok false →
        middlewareDecision u rid c = MwOutcome.respond 403) ∧
      (∀ msg, c = Except.error msg → middlewareDecision u rid c ≠ MwOutcome.callHandler) ∧
      (c = Except.ok false → middlewareDecision u rid c ≠ MwOutcome.callHandler) := by
  intro u rid c
  rcases u with _ | a <;> rcases rid with _ | b <;> rcases c with msg | bb <;>
    (try cases bb) <;> simp [middlewareDecision]

theorem c2_witness :
    middlewareDecision (some "user_bob") (some "farm_1") (Except.ok false) =
      MwOutcome.respond 403 :=
  (c2_middleware_fail_closed (some "user_bob") (some "farm_1") (Except.ok false)).2.1
    rfl rfl rfl

/-- C3: lookup agrees with check: every resource returned by
lookupResources satisfies check, every resource of the requested type not
returned fails check, and the result has no duplicate references and no
duplicate resource ids. -/
theorem c3_lookup_check_consistency :
    ∀ (store : List Tuple) (s : ObjRef) (ty p : String),
      (∀ r ∈ lookupResources store s ty p, check store s r p = true) ∧
      (∀ r : ObjRef, r.ty = ty → r ∉ lookupResources store s ty p →
        check store s r p = false) ∧
      (lookupResources store s ty p).Nodup ∧
      ((lookupResources store s ty p).map (fun r => r.id)).Nodup := by
  intro store s ty p
  have hbase : ∀ r ∈ resourcesOfType store ty, r.ty = ty := by
    intro r hr
    have := (List.mem_filter.mp (List.mem_dedup.mp hr)).2
    exact of_decide_eq_true this
  refine ⟨?_, ?_, ?_, ?_⟩
  · intro r hr
    exact (List.mem_filter.mp hr).2
  · intro r hty hnot
    by_cases hres : r ∈ resourcesOfType store ty
    · cases hc : check store s r p with
      | false => rfl
      | true => exact absurd (List.mem_filter.mpr ⟨hres, hc⟩) hnot
    · apply checkVisited_absent
      intro rl
      apply relTargets_nil_of_not_res
      intro t ht hc
      apply hres
      have hm : r ∈ store.map (fun t => t.res) := List.mem_map.mpr ⟨t, ht, hc⟩
      exact List.mem_dedup.mpr (List.mem_filter.mpr ⟨hm, by simp [hty]⟩)
  · exact List.Nodup.filter _ (List.nodup_dedup _)
  · apply List.Nodup.map_on
    · intro x hx y hy hxy
      have hxb := List.mem_of_mem_filter hx
      have hyb := List.mem_of_mem_filter hy
      have hxt := hbase x hxb
      have hyt := hbase y hyb
      cases x with
      | mk xty xid =>
        cases y with
        | mk yty yid =>
          simp only at hxt hyt hxy
          rw [hxt, hyt, hxy]
    · exact List.Nodup.filter _ (List.nodup_dedup _)

theorem c3_witness : check sampleStore alice farm1 "view" = true :=
  (c3_lookup_check_consistency sampleStore alice "farm" "view").1 farm1 (by decide)

/-- C4: check is monotone in the relationship store: touching one tuple
never turns a true check false, and deleting one tuple never turns a
false check true. -/
theorem c4_check_monotone_in_store :
    ∀ (store : List Tuple) (t : Tuple) (s r : ObjRef) (p : String),
      (check store s r p = true → check (touchTuple store t) s r p = true) ∧
      (check store s r p = false → check (deleteTuple store t) s r p = false) := by
  intro store t s r p
  constructor
  · intro h
    have hsub : ∀ x ∈ store, x ∈ touchTuple store t := by
      intro x hx
      unfold touchTuple
      by_cases ht : t ∈ store
      · rw [if_pos ht]; exact hx
      · rw [if_neg ht]; exact List.mem_cons_of_mem t hx
    exact checkVisited_mono hsub depthCap [] s r p h
  · intro h
    have hc : check (deleteTuple store t) s r p = true →
        check store s r p = true := by
      intro htrue
      have hsub : ∀ x ∈ deleteTuple store t, x ∈ store :=
        fun x hx => List.mem_of_mem_filter hx
      exact checkVisited_mono hsub depthCap [] s r p htrue
    cases hd : check (deleteTuple store t) s r p with
    | false => rfl
    | true => rw [hc hd] at h; exact absurd h (by simp)

theorem c4_witness :
    check (touchTuple sampleStore ⟨farm1, "viewer", bob⟩) alice farm1 "manage" = true ∧
    check (deleteTuple sampleStore ⟨farm1, "owner", alice⟩) bob farm1 "view" = false :=
  ⟨(c4_check_monotone_in_store sampleStore ⟨farm1, "viewer", bob⟩ alice farm1 "manage").1
      (by decide),
   (c4_check_monotone_in_store sampleStore ⟨farm1, "owner", alice⟩ bob farm1 "view").2
      (by decide)⟩

/-- C5: union law: a union expression evaluates to the boolean OR of its
operands (and is commutative in result, so evaluation order affects only
the store reads); instantiated on the declared schema,
organization.view equals check of admin OR check of member. -/
theorem c5_union_law :
    (∀ (store : List Tuple) (chk : ObjRef → String → Bool) (s r : ObjRef) (a b : PermExpr),
        evalExprWith store chk s r (.union a b) =
          (evalExprWith store chk s r a || evalExprWith store chk s r b) ∧
        evalExprWith store chk s r (.union a b) = evalExprWith store chk s r (.union b a)) ∧
    (∀ (store : List Tuple) (s o : ObjRef), o.ty = "organization" →
        check store s o "view" = (check store s o "admin" || check store s o "member")) := by
  constructor
  · intro store chk s r a b
    exact ⟨rfl, Bool.or_comm _ _⟩
  · intro store s o hO
    rw [check_org_union store s o "view" hO (Or.inl rfl),
      check_org_admin store s o "admin" hO (Or.inl rfl),
      check_org_member store s o hO]
    rfl

theorem c5_witness :
    check sampleStore alice org1 "view" =
      (check sampleStore alice org1 "admin" || check sampleStore alice org1 "member") :=
  c5_union_law.2 sampleStore alice org1 rfl

/-- C6: intersection law: an intersection expression evaluates to the
boolean AND of its operands (commutative in result); instantiated on the
declared schema, query_session.execute holds iff the subject holds the
user relation on the session and the query permission on some linked
farm. -/
theorem c6_intersection_law :
    (∀ (store : List Tuple) (chk : ObjRef → String → Bool) (s r : ObjRef) (a b : PermExpr),
        evalExprWith store chk s r (.inter a b) =
          (evalExprWith store chk s r a && evalExprWith store chk s r b) ∧
        evalExprWith store chk s r (.inter a b) = evalExprWith store chk s r (.inter b a)) ∧
    (∀ (store : List Tuple) (s Q : ObjRef), WellTyped store → Q.ty = "query_session" →
        check store s Q "execute" =
          (hasRel store Q "user" s &&
            (relTargets store Q "farm").any (fun F => check store s F "query"))) := by
  constructor
  · intro store chk s r a b
    exact ⟨rfl, Bool.and_comm _ _⟩
  · intro store s Q hWT hQ
    have hR : ∀ F ∈ relTargets store Q "farm",
        check store s F "query" = farmUnionForm store F s := fun F hF =>
      check_farm_vq store s F "query" (qs_farm_target hWT hQ hF) hWT (Or.inr rfl)
    rw [check_qs_execute store s Q hQ hWT, any_ext hR]

theorem c6_witness :
    check sampleStore alice sess1 "execute" =
      (hasRel sampleStore sess1 "user" alice &&
        (relTargets sampleStore sess1 "farm").any
          (fun F => check sampleStore alice F "query")) :=
  c6_intersection_law.2 sampleStore alice sess1 (by decide) rfl

/-- C7: the evaluator is total (check returns a boolean on every input;
it is a function, so repeated calls on an unchanged store agree), and an
expansion that revisits a (resource, permission) pair already under
evaluation resolves that cyclic branch to false rather than looping or
erroring. -/
theorem c7_termination_and_cycle_guard :
    (∀ (store : List Tuple) (fuel : Nat) (V : List (ObjRef × String)) (s r : ObjRef)
        (p : String), (r, p) ∈ V → checkVisited store fuel V s r p = false) ∧
    (∀ (store : List Tuple) (s r : ObjRef) (p : String),
        check store s r p = true ∨ check store s r p = false) := by
  constructor
  · intro store fuel V s r p hv
    cases fuel with
    | zero => rfl
    | succ n => rw [checkVisited_succ, if_pos hv]
  · intro store s r p
    cases h : check store s r p with
    | false => exact Or.inr rfl
    | true => exact Or.inl rfl

theorem c7_witness :
    checkVisited sampleStore 3 [(farm1, "view")] alice farm1 "view" = false :=
  c7_termination_and_cycle_guard.1 sampleStore 3 [(farm1, "view")] alice farm1 "view"
    (by decide)

/-- C8: every check request the service constructs carries the
fully-consistent consistency requirement. -/
theorem c8_check_fully_consistent :
    ∀ params : CheckPermissionParams,
      (buildCheckPermissionRequest params).consistency = ConsistencyMode.fullyConsistent :=
  fun _ => rfl

/-- C9: relationship writes are idempotent: touching an existing tuple
leaves the store unchanged and keeps triples unique, touch after touch
equals one touch, delete after delete equals one delete, deleting an
absent tuple is a no-op; and the service's create and delete methods
issue TOUCH and DELETE operations respectively. -/
theorem c9_write_idempotence :
    (∀ (store : List Tuple) (t : Tuple), t ∈ store → touchTuple store t = store) ∧
    (∀ (store : List Tuple) (t : Tuple),
        touchTuple (touchTuple store t) t = touchTuple store t) ∧
    (∀ (store : List Tuple) (t : Tuple),
        deleteTuple (deleteTuple store t) t = deleteTuple store t) ∧
    (∀ (store : List Tuple) (t : Tuple), t ∉ store → deleteTuple store t = store) ∧
    (∀ (store : List Tuple) (t : Tuple), store.Nodup → (touchTuple store t).Nodup) ∧
    (∀ params : CreateRelationshipParams,
        (buildCreateRelationshipUpdate params).op = RelOp.TOUCH) ∧
    (∀ params : CreateRelationshipParams,
        (buildDeleteRelationshipUpdate params).op = RelOp.DELETE) := by
  refine ⟨?_, ?_, ?_, ?_, ?_, fun _ => rfl, fun _ => rfl⟩
  · intro store t h
    unfold touchTuple
    rw [if_pos h]
  · intro store t
    by_cases h : t ∈ store
    · simp [touchTuple, h]
    · simp [touchTuple, h]
  · intro store t
    apply List.filter_eq_self.mpr
    intro a ha
    exact (List.mem_filter.mp ha).2
  · intro store t h
    apply List.filter_eq_self.mpr
    intro a ha
    exact decide_eq_true (fun he => h (he ▸ ha))
  · intro store t h
    unfold touchTuple
    by_cases ht : t ∈ store
    · rw [if_pos ht]; exact h
    · rw [if_neg ht]; exact List.nodup_cons.mpr ⟨ht, h⟩

theorem c9_witness :
    touchTuple sampleStore ⟨org1, "admin", alice⟩ = sampleStore ∧
    deleteTuple sampleStore ⟨farm1, "viewer", bob⟩ = sampleStore ∧
    (touchTuple sampleStore ⟨farm1, "viewer", bob⟩).Nodup :=
  ⟨c9_write_idempotence.1 sampleStore ⟨org1, "admin", alice⟩ (by decide),
   c9_write_idempotence.2.2.2.1 sampleStore ⟨farm1, "viewer", bob⟩ (by decide),
   c9_write_idempotence.2.2.2.2.1 sampleStore ⟨farm1, "viewer", bob⟩ (by decide)⟩

/-- C10: every check and lookup request the service constructs fixes the
subject's object type to user, so a check or lookup about a non-user
subject cannot be expressed through the public check or lookup
interface. -/
theorem c10_subject_always_user :
    (∀ params : CheckPermissionParams,
        (buildCheckPermissionRequest params).subject.ty = "user") ∧
    (∀ userId resourceType permission : String,
        (buildLookupResourcesRequest userId resourceType permission).subject.ty = "user") :=
  ⟨fun _ => rfl, fun _ _ _ => rfl⟩

end HarvestAuthz
